import Mathlib

set_option maxRecDepth 10000

/-!
Verification of the ResilientMesh simulator (`src/main.rs`).

The development shallowly embeds the simulation engine:
* machine floats (`f32`/`f64`) are modelled by `ℚ`.  Every energy/balance
  value the program manipulates is a multiple of `0.5` whose magnitude
  stays far below `2^23`, so `f32` arithmetic on them is exact and the
  rational model is faithful; position arithmetic is likewise exact for
  the integer coordinates used in the concrete configurations below.
* the `rand` draws of the Swarm forwarding policy
  (`rng.random_bool(0.05 * bat_p)`) are modelled by an explicit decision
  stream `decisions : ℕ → Bool`, one entry consumed per call, with the
  outcome forced to `false` when the probability is zero
  (`battery_level = 0`); for a positive probability both outcomes occur
  with positive probability, so every boolean stream is a possible
  execution.
* `HashMap`/`HashSet`/`VecDeque` are modelled by association lists and
  lists (front of list = front of deque).
* display-only fields (`lat`, `lon`, wallet `address`, the textual log
  labels) are omitted; they never influence simulation behaviour.
* the scenario parameters that `run_simulation` fixes inline
  (`node_count = 60`, randomized `Node::new` generation, `max_steps = 40`)
  are exposed as the node-list and step-count arguments of the embedded
  run, mirroring the specification's scenario-configuration interface;
  the global constants keep their source values.
-/

namespace Mesh

/-- Type `SimMode` from the source: flooding baseline vs. swarm policy. -/
inductive SimMode where
  | Flooding
  | Swarm
deriving DecidableEq, Repr

/-- Type `NodeType` from the source. -/
inductive NodeType where
  | Smartphone
  | BaseStation
deriving DecidableEq, Repr

/-- Type `Wallet` from the source (the display-only `address` field is omitted). -/
structure Wallet where
  balance_token : ℚ
  balance_usdc : ℚ
deriving DecidableEq, Repr

/-- Type `Node` from the source (display-only `lat`/`lon` omitted). -/
structure Node where
  id : ℕ
  position : ℚ × ℚ
  is_active : Bool
  peers : List ℕ
  node_type : NodeType
  battery_level : ℚ
  transmission_range : ℚ
  wallet : Wallet
deriving DecidableEq, Repr

/-- Type `Packet` from the source.  A packet id `M{step}_{mode}` is determined,
within one run (whose mode is fixed), by its injection step, so ids are
modelled by that step number. -/
structure Packet where
  id : ℕ
  history : List ℕ
  target_id : ℕ
  hops : ℕ
  ttl : ℕ
deriving DecidableEq, Repr

/-!
Rational arithmetic wrappers.  `Rat.add`/`Rat.sub`/`Rat.mul` are marked
`@[irreducible]` upstream, which prevents `decide` from evaluating
concrete runs; the wrappers below compute the same values through the
transparent `mkRat` and are proved equal to the standard operations, so
every theorem may freely speak in terms of `+`, `-`, `*`.
-/

/-- Kernel-evaluable rational addition; equals `a + b`. -/
def qAdd (a b : ℚ) : ℚ := mkRat (a.num * b.den + b.num * a.den) (a.den * b.den)

/-- Kernel-evaluable rational subtraction; equals `a - b`. -/
def qSub (a b : ℚ) : ℚ := mkRat (a.num * b.den - b.num * a.den) (a.den * b.den)

/-- Kernel-evaluable rational multiplication; equals `a * b`. -/
def qMul (a b : ℚ) : ℚ := mkRat (a.num * b.num) (a.den * b.den)

-- Constants from the source.

def BATTERY_FULL_SMARTPHONE : ℚ := 1000

def BATTERY_INFINITE : ℚ := 999999

/-- Constant `COST_IDLE = 0.5`, written through the transparent `mkRat`. -/
def COST_IDLE : ℚ := mkRat 1 2

def COST_TX : ℚ := 5

def COST_RX : ℚ := 2

def REWARD_RELAY : ℚ := 1

def INSURANCE_PAYOUT : ℚ := 10000

def DISASTER_STEP : ℕ := 20

/-- Function `f32::max`, written as an explicit comparison so that the kernel can
evaluate it (`ratMax_eq_max` identifies it with the lattice `max`). -/
def ratMax (a b : ℚ) : ℚ := if a ≤ b then b else a

/-- Method `Node::consume_battery` from the source: only smartphones drain; the
level is clamped at zero (`(battery - cost).max(0.0)`) and the node is
deactivated when it reaches zero. -/
def Node.consume_battery (n : Node) (cost : ℚ) : Node :=
  if n.node_type = NodeType.Smartphone then
    let b := ratMax (qSub n.battery_level cost) 0
    { n with battery_level := b, is_active := if b ≤ 0 then false else n.is_active }
  else n

/-- Squared Euclidean distance between two nodes' positions. -/
def distSq (a b : Node) : ℚ :=
  let dx := qSub a.position.1 b.position.1
  let dy := qSub a.position.2 b.position.2
  qAdd (qMul dx dx) (qMul dy dy)

/-- Method `Node::distance_to` from the source: Euclidean distance. -/
noncomputable def Node.distance_to (a b : Node) : ℝ :=
  Real.sqrt ((distSq a b : ℚ) : ℝ)

/-- The adjacency test of the source's network builder,
`a.distance_to(b) <= a.transmission_range`, as a decidable test on the
exact rational data: for the nonnegative `d = distSq a b`,
`sqrt d ≤ r ↔ 0 ≤ r ∧ d ≤ r * r` (proved in `reachesB_iff_distance`). -/
def reachesB (a b : Node) : Bool :=
  decide (0 ≤ a.transmission_range ∧ distSq a b ≤ qMul a.transmission_range a.transmission_range)

/-- A default node used only to totalize list indexing; the source's
indexing (`nodes[i]`) never goes out of range in the states this
development reasons about (out-of-range access would panic in Rust).
The default is inert: inactive, no peers, zero balances. -/
def dummyNode : Node :=
  { id := 0, position := (0, 0), is_active := false, peers := [],
    node_type := NodeType.Smartphone, battery_level := 0,
    transmission_range := 0, wallet := { balance_token := 0, balance_usdc := 0 } }

/-- Indexing `nodes[i]`. -/
def getNode (ns : List Node) (i : ℕ) : Node := ns.getD i dummyNode

/-- In-place mutation `nodes[i] = f(nodes[i])`. -/
def modifyNode (ns : List Node) (i : ℕ) (f : Node → Node) : List Node :=
  ns.set i (f (getNode ns i))

/-- One row of the adjacency rebuild in `run_simulation`: node `i`
lists every `j ≠ i` with `distance(i,j) ≤ range(i)`, in ascending index
order (the source pushes `j` in loop order). -/
def buildAdjacency (ns : List Node) (i : ℕ) : List ℕ :=
  (List.range ns.length).filter (fun j => decide (j ≠ i) && reachesB (getNode ns i) (getNode ns j))

/-- The peer-rebuild loop of `run_simulation`: each node's `peers` is set
to the adjacency row keyed by its `id` (ids equal indices for generated
node sets; a node whose id is out of range keeps its old peers, as the
source's `HashMap` lookup then finds nothing). -/
def rebuildPeers (ns : List Node) : List Node :=
  ns.map (fun n => if n.id < ns.length then { n with peers := buildAdjacency ns n.id } else n)

/-- The smartphone branch of `Node::new` at a given position (random
position/type drawing is external to the embedded run). -/
def Node.new_smartphone (id : ℕ) (x y : ℚ) : Node :=
  { id := id, position := (x, y), is_active := true, peers := [],
    node_type := NodeType.Smartphone, battery_level := BATTERY_FULL_SMARTPHONE,
    transmission_range := 40, wallet := { balance_token := 0, balance_usdc := 0 } }

/-- The base-station branch of `Node::new` at a given position. -/
def Node.new_base_station (id : ℕ) (x y : ℚ) : Node :=
  { id := id, position := (x, y), is_active := true, peers := [],
    node_type := NodeType.BaseStation, battery_level := BATTERY_INFINITE,
    transmission_range := 180, wallet := { balance_token := 0, balance_usdc := 0 } }

-- The per-step packet drain (source lines 245-324).

/-- Events recorded in the structured log. -/
inductive SimEvent where
  | DISASTER_START
  | ORACLE_PAYOUT
deriving DecidableEq, Repr

/-- Type `PacketLog` from the source: one delivered packet copy. -/
structure PacketLog where
  id : ℕ
  path : List ℕ
deriving DecidableEq, Repr

/-- Type `NodeLog` from the source (display-only `lat`/`lon` omitted). -/
structure NodeLog where
  id : ℕ
  is_active : Bool
  node_type : NodeType
  battery : ℚ
deriving DecidableEq, Repr

/-- Type `SimLog` from the source: one per-step snapshot. -/
structure SimLog where
  step : ℕ
  nodes : List NodeLog
  packets : List PacketLog
  events : List SimEvent
deriving DecidableEq, Repr

def mkNodeLog (n : Node) : NodeLog :=
  { id := n.id, is_active := n.is_active, node_type := n.node_type, battery := n.battery_level }

/-- The source's `step_visited : HashMap<String, HashSet<u32>>` as an
association list from packet id to the node ids the packet was already
forwarded to this step. -/
def visitedGet : List (ℕ × List ℕ) → ℕ → List ℕ
  | [], _ => []
  | e :: rest, pid => if e.1 = pid then e.2 else visitedGet rest pid

def visitedInsert (m : List (ℕ × List ℕ)) (pid nid : ℕ) : List (ℕ × List ℕ) :=
  match m with
  | [] => [(pid, [nid])]
  | e :: rest =>
    if e.1 = pid then (pid, nid :: e.2) :: rest else e :: visitedInsert rest pid nid

/-- Accumulator of the queue-drain loop: the mutable state the loop
body touches (`nodes`, `next_queue`, `step_visited`, the statistics
counters, `verified_packets`, and the position in the random stream). -/
structure DrainAcc where
  nodes : List Node
  next_queue : List Packet
  step_visited : List (ℕ × List ℕ)
  energy : ℚ
  success : ℕ
  hops : ℕ
  verified : List PacketLog
  pos : ℕ
deriving Repr

/-- The per-offer forward decision (source lines 283-298).
`random_bool(0.05 * bat_p)` consumes one stream entry; the drawn outcome
is forced to `false` when the probability `0.05 * battery/1000` is zero,
i.e. when the battery is exhausted. -/
def forwardDecision (mode : SimMode) (decisions : ℕ → Bool) (pos : ℕ) (neighbor : Node) :
    Bool × ℕ :=
  match mode with
  | SimMode.Flooding => (true, pos)
  | SimMode.Swarm =>
    if neighbor.node_type = NodeType.BaseStation then (true, pos)
    else ((decisions pos && decide (0 < neighbor.battery_level)), pos + 1)

/-- The token reward credited to a relaying node (source lines 304-307). -/
def rewardNode (n : Node) : Node :=
  { n with wallet := { n.wallet with balance_token := qAdd n.wallet.balance_token REWARD_RELAY } }

/-- The body of `for neighbor_id in peers` (source lines 273-322). -/
def offerPeer (mode : SimMode) (decisions : ℕ → Bool) (p : Packet)
    (acc : DrainAcc) (neighbor_id : ℕ) : DrainAcc :=
  if neighbor_id ∈ p.history then acc
  else if neighbor_id ∈ visitedGet acc.step_visited p.id then acc
  else
    let neighbor := getNode acc.nodes neighbor_id
    if neighbor.is_active = false then acc
    else
      let dec := forwardDecision mode decisions acc.pos neighbor
      if dec.1 then
        let nodes1 := modifyNode acc.nodes neighbor_id (fun n => n.consume_battery COST_RX)
        let nodes2 :=
          if mode = SimMode.Swarm then modifyNode nodes1 neighbor_id rewardNode
          else nodes1
        { nodes := nodes2,
          next_queue := acc.next_queue ++
            [{ id := p.id, history := p.history ++ [neighbor_id],
               target_id := p.target_id, hops := p.hops + 1, ttl := p.ttl - 1 }],
          step_visited := visitedInsert acc.step_visited p.id neighbor_id,
          energy := qAdd acc.energy COST_RX,
          success := acc.success, hops := acc.hops, verified := acc.verified,
          pos := dec.2 }
      else { acc with pos := dec.2 }

/-- The body of `while let Some(packet) = packet_queue.pop_front()`
(source lines 252-323). -/
def processPacket (mode : SimMode) (decisions : ℕ → Bool) (target : ℕ)
    (acc : DrainAcc) (p : Packet) : DrainAcc :=
  let current := p.history.getLastD 0
  if current = target then
    { acc with success := acc.success + 1, hops := acc.hops + p.hops,
               verified := acc.verified ++ [{ id := p.id, path := p.history }] }
  else if p.ttl = 0 ∨ (getNode acc.nodes current).is_active = false then acc
  else
    let acc1 := { acc with
      nodes := modifyNode acc.nodes current (fun n => n.consume_battery COST_TX),
      energy := qAdd acc.energy COST_TX }
    ((getNode acc1.nodes current).peers).foldl (offerPeer mode decisions p) acc1

/-- Draining the whole current-step queue, front first. -/
def drainQueue (mode : SimMode) (decisions : ℕ → Bool) (target : ℕ)
    (q : List Packet) (acc : DrainAcc) : DrainAcc :=
  q.foldl (processPacket mode decisions target) acc

/-- Run state between steps. -/
structure RunState where
  nodes : List Node
  packet_queue : List Packet
  total_energy : ℚ
  successful_packets : ℕ
  total_hops : ℕ
  disaster_triggered : Bool
  oracle_alert_sent : Bool
  pos : ℕ
  sim_logs : List SimLog
deriving Repr

/-- The disaster event (source lines 191-205): every active node in the
south half-plane `y < 80` is deactivated with its battery zeroed. -/
def applyDisaster (ns : List Node) : List Node :=
  ns.map (fun n =>
    if n.position.2 < 80 ∧ n.is_active then
      { n with is_active := false, battery_level := 0 }
    else n)

def southTotal (ns : List Node) : ℕ :=
  (ns.filter (fun n => decide (n.position.2 < 80))).length

def southActive (ns : List Node) : ℕ :=
  (ns.filter (fun n => decide (n.position.2 < 80) && n.is_active)).length

/-- The oracle's firing condition (source lines 208-212), evaluated on
the post-disaster node state of the current step. -/
def oracleFires (mode : SimMode) (dis sent : Bool) (ns : List Node) : Bool :=
  dis && !sent && decide (mode = SimMode.Swarm) &&
    decide (0 < southTotal ns) && decide (southActive ns = 0)

/-- The payout loop (source lines 218-222): every node in the region is
credited the fixed payout, active or not. -/
def payoutSouth (ns : List Node) : List Node :=
  ns.map (fun n =>
    if n.position.2 < 80 then
      { n with wallet := { n.wallet with balance_usdc := qAdd n.wallet.balance_usdc INSURANCE_PAYOUT } }
    else n)

/-- The disaster phase of one step: fires exactly at `DISASTER_STEP`. -/
def disasterPhase (step : ℕ) (ns : List Node) : List Node :=
  if step = DISASTER_STEP then applyDisaster ns else ns

/-- Whether the oracle fires during step `step` entered in state `s`
(used by `simStep`; evaluated after the disaster phase, as in the
source). -/
def stepFires (mode : SimMode) (s : RunState) (step : ℕ) : Bool :=
  oracleFires mode (if step = DISASTER_STEP then true else s.disaster_triggered)
    s.oracle_alert_sent (disasterPhase step s.nodes)

/-- Node state after the disaster and oracle phases of one step
(source phases 1-2). -/
def preNodes (mode : SimMode) (s : RunState) (step : ℕ) : List Node :=
  if stepFires mode s step then payoutSouth (disasterPhase step s.nodes)
  else disasterPhase step s.nodes

/-- The fresh packet injected at `step` (source phase 3). -/
def freshPacket (s : RunState) (step : ℕ) : Packet :=
  { id := step, history := [0], target_id := s.nodes.length - 1, hops := 0, ttl := 15 }

/-- The current-step queue after injection: the carried queue plus, when
the origin node 0 is active, the fresh packet (source phase 3). -/
def injectQueue (mode : SimMode) (s : RunState) (step : ℕ) : List Packet :=
  if (getNode (preNodes mode s step) 0).is_active then
    s.packet_queue ++ [freshPacket s step]
  else s.packet_queue

/-- Node state after the idle drain (source phase 4). -/
def idleNodes (mode : SimMode) (s : RunState) (step : ℕ) : List Node :=
  (preNodes mode s step).map (fun n => if n.is_active then n.consume_battery COST_IDLE else n)

/-- The energy counter after the idle drain (source phase 4). -/
def idleEnergy (mode : SimMode) (s : RunState) (step : ℕ) : ℚ :=
  (preNodes mode s step).foldl (fun e n => if n.is_active then qAdd e COST_IDLE else e)
    s.total_energy

/-- The queue drain of one step (source phase 5), started with an empty
next queue and an empty suppression map. -/
def stepDrain (mode : SimMode) (decisions : ℕ → Bool) (s : RunState) (step : ℕ) : DrainAcc :=
  drainQueue mode decisions (s.nodes.length - 1) (injectQueue mode s step)
    { nodes := idleNodes mode s step, next_queue := [], step_visited := [],
      energy := idleEnergy mode s step, success := s.successful_packets,
      hops := s.total_hops, verified := [], pos := s.pos }

/-- The events recorded for one step. -/
def stepEvents (mode : SimMode) (s : RunState) (step : ℕ) : List SimEvent :=
  (if step = DISASTER_STEP then [SimEvent.DISASTER_START] else []) ++
    (if stepFires mode s step then [SimEvent.ORACLE_PAYOUT] else [])

/-- One iteration of `for step in 1..=max_steps` (source lines 187-344):
disaster, oracle, injection, idle drain, queue drain, queue swap,
logging. -/
def simStep (mode : SimMode) (decisions : ℕ → Bool) (export_logs : Bool)
    (s : RunState) (step : ℕ) : RunState :=
  { nodes := (stepDrain mode decisions s step).nodes,
    packet_queue := (stepDrain mode decisions s step).next_queue,
    total_energy := (stepDrain mode decisions s step).energy,
    successful_packets := (stepDrain mode decisions s step).success,
    total_hops := (stepDrain mode decisions s step).hops,
    disaster_triggered := if step = DISASTER_STEP then true else s.disaster_triggered,
    oracle_alert_sent := if stepFires mode s step then true else s.oracle_alert_sent,
    pos := (stepDrain mode decisions s step).pos,
    sim_logs :=
      if export_logs then
        s.sim_logs ++
          [{ step := step, nodes := (stepDrain mode decisions s step).nodes.map mkNodeLog,
             packets := (stepDrain mode decisions s step).verified,
             events := stepEvents mode s step }]
      else s.sim_logs }

/-- The state before step 1: peers rebuilt, everything else empty. -/
def initState (ns : List Node) : RunState :=
  { nodes := rebuildPeers ns, packet_queue := [], total_energy := 0,
    successful_packets := 0, total_hops := 0, disaster_triggered := false,
    oracle_alert_sent := false, pos := 0, sim_logs := [] }

/-- The state after steps `1, 2, …, k` of the run. -/
def stepsFold (mode : SimMode) (decisions : ℕ → Bool) (export_logs : Bool)
    (ns : List Node) : ℕ → RunState
  | 0 => initState ns
  | k + 1 => simStep mode decisions export_logs (stepsFold mode decisions export_logs ns k) (k + 1)

/-- Function `run_simulation` from the source, over an explicit generated node
set, decision stream, and step budget. -/
def run_simulation (mode : SimMode) (decisions : ℕ → Bool) (ns : List Node)
    (max_steps : ℕ) (export_logs : Bool) : RunState :=
  stepsFold mode decisions export_logs ns max_steps

/-!
Concrete scenario data used by the counterexamples and witnesses.
Each node set is a possible output of the source's random generation
(positions inside `[0,200)²`, type-matched battery and range, all nodes
initially active with zero balances, ids equal to indices).
-/

/-- A decision stream that declines every offer (irrelevant in Flooding
mode, which never consults the stream). -/
def noDecisions : ℕ → Bool := fun _ => false

/-- Seven smartphones, all north of the disaster line.  Node 0 is the
origin, node 6 the destination. -/
def c2nodes : List Node :=
  [Node.new_smartphone 0 62 122, Node.new_smartphone 1 58 132,
   Node.new_smartphone 2 93 100, Node.new_smartphone 3 72 104,
   Node.new_smartphone 4 40 147, Node.new_smartphone 5 30 112,
   Node.new_smartphone 6 75 87]

/-- An adversarial Swarm decision stream for `c2nodes`: by declining a
few strategically chosen offers it steers packet copies onto longer
routes, and the five-step Swarm run consumes more total energy than the
Flooding run on the identical topology. -/
def c2bits : List Bool :=
  [true,true,true,true,true,true,false,true,true,true,false,false,true,true,true,true,
   true,true,true,true,true,true,true,true,false,true,true,true,false,true,true,false,
   true,true,true,true,true,true,true,true,true,true,true,true,true,true,true,true,
   true,true,true,true,false,true,false,false,true,true,true,true,true,true,true,true,
   true,true,true,true,true,true,true,true,true,true,true,true,true,true,true,true,
   false,true,false,true,true,true,true,true,true,true,true,true]

def c2decisions : ℕ → Bool := fun i => c2bits.getD i false

/-- Six smartphones forming two disjoint routes from node 0 to node 5:
`0-1-5` (two hops) and `0-2-3-4-5` (four hops). -/
def c10nodes : List Node :=
  [Node.new_smartphone 0 0 0, Node.new_smartphone 1 40 0,
   Node.new_smartphone 2 0 40, Node.new_smartphone 3 38 42,
   Node.new_smartphone 4 75 38, Node.new_smartphone 5 80 0]

/-- Two isolated smartphones inside the disaster region (`y < 80`),
farther apart than their transmission range. -/
def twoSouth : List Node :=
  [Node.new_smartphone 0 0 0, Node.new_smartphone 1 100 0]

/-- A long-range base station and a short-range smartphone 100 apart:
the station reaches the phone, the phone cannot reach back. -/
def pairC4 : List Node :=
  [Node.new_base_station 0 0 100, Node.new_smartphone 1 100 100]

/-- Two adjacent smartphones 40 apart; node 1 is the destination. -/
def pairC6 : List Node :=
  [Node.new_smartphone 0 0 0, Node.new_smartphone 1 40 0]

/-!
Packet bookkeeping helpers used by the structural lemmas and run-level
invariants below.
-/

/-- The packet enqueued when `p` is forwarded to `nid`. -/
def enqPacket (p : Packet) (nid : ℕ) : Packet :=
  { id := p.id, history := p.history ++ [nid], target_id := p.target_id,
    hops := p.hops + 1, ttl := p.ttl - 1 }

/-- The node currently holding a packet: the last entry of its path. -/
def lastNode (p : Packet) : ℕ := p.history.getLastD 0

/-- The per-step deduplication key of a queued forward: the packet
identity paired with the node the packet was forwarded to. -/
def forwardKey (p : Packet) : ℕ × ℕ := (p.id, lastNode p)

/-- The run invariant "an inactive node has zero battery" (used for C7). -/
def Wnode (n : Node) : Prop := n.is_active = false → n.battery_level = 0

-- Verified properties.

theorem qAdd_eq (a b : ℚ) : qAdd a b = a + b := (Rat.add_def' a b).symm

theorem qSub_eq (a b : ℚ) : qSub a b = a - b := (Rat.sub_def' a b).symm

theorem qMul_eq (a b : ℚ) : qMul a b = a * b := by
  rw [Rat.mul_def, Rat.normalize_eq_mkRat]; rfl

theorem COST_IDLE_eq : COST_IDLE = 1/2 := by
  rw [COST_IDLE, Rat.mkRat_eq_div]; norm_num

theorem ratMax_eq_max (a b : ℚ) : ratMax a b = max a b := (max_def a b).symm

-- The adjacency test agrees with the source's square-root comparison.

theorem distSq_eq (a b : Node) :
    distSq a b = (a.position.1 - b.position.1) * (a.position.1 - b.position.1) +
      (a.position.2 - b.position.2) * (a.position.2 - b.position.2) := by
  unfold distSq
  simp only [qAdd_eq, qMul_eq, qSub_eq]

theorem distSq_nonneg (a b : Node) : 0 ≤ distSq a b := by
  rw [distSq_eq]
  have h1 : (0:ℚ) ≤ (a.position.1 - b.position.1) * (a.position.1 - b.position.1) :=
    mul_self_nonneg _
  have h2 : (0:ℚ) ≤ (a.position.2 - b.position.2) * (a.position.2 - b.position.2) :=
    mul_self_nonneg _
  linarith

theorem reachesB_iff_distance (a b : Node) :
    reachesB a b = true ↔ a.distance_to b ≤ (a.transmission_range : ℝ) := by
  unfold reachesB Node.distance_to
  rw [decide_eq_true_iff, qMul_eq]
  constructor
  · rintro ⟨hr, hd⟩
    have hd' : ((distSq a b : ℚ) : ℝ) ≤ ((a.transmission_range : ℚ) : ℝ) * ((a.transmission_range : ℚ) : ℝ) := by
      exact_mod_cast hd
    have hr' : (0:ℝ) ≤ ((a.transmission_range : ℚ) : ℝ) := by exact_mod_cast hr
    calc Real.sqrt ((distSq a b : ℚ) : ℝ)
        ≤ Real.sqrt (((a.transmission_range : ℚ) : ℝ) * ((a.transmission_range : ℚ) : ℝ)) :=
          Real.sqrt_le_sqrt hd'
      _ = ((a.transmission_range : ℚ) : ℝ) := Real.sqrt_mul_self hr'
  · intro h
    have hs : (0:ℝ) ≤ Real.sqrt ((distSq a b : ℚ) : ℝ) := Real.sqrt_nonneg _
    have hr' : (0:ℝ) ≤ ((a.transmission_range : ℚ) : ℝ) := le_trans hs h
    have hr : (0:ℚ) ≤ a.transmission_range := by exact_mod_cast hr'
    refine ⟨hr, ?_⟩
    have hd0 : (0:ℝ) ≤ ((distSq a b : ℚ) : ℝ) := by exact_mod_cast distSq_nonneg a b
    have := Real.sqrt_le_sqrt (le_of_eq (rfl : ((distSq a b : ℚ) : ℝ) = _))
    have hsq : ((distSq a b : ℚ) : ℝ) ≤ ((a.transmission_range : ℚ) : ℝ) * ((a.transmission_range : ℚ) : ℝ) := by
      have h2 := mul_le_mul h h hs hr'
      rwa [Real.mul_self_sqrt hd0] at h2
    exact_mod_cast hsq

-- Pointwise access lemmas for the list-of-nodes state.

theorem getNode_map_lt (f : Node → Node) (ns : List Node) (i : ℕ) (h : i < ns.length) :
    getNode (ns.map f) i = f (getNode ns i) := by
  unfold getNode
  simp [List.getD_eq_getElem?_getD, List.getElem?_map,
    List.getElem?_eq_getElem h]

theorem getNode_map_ge (f : Node → Node) (ns : List Node) (i : ℕ) (h : ns.length ≤ i) :
    getNode (ns.map f) i = dummyNode := by
  unfold getNode
  simp [List.getD_eq_getElem?_getD, List.getElem?_eq_none (by simpa using h),
    List.getElem?_eq_none (l := ns) (by simpa using h)]

theorem getNode_ge (ns : List Node) (i : ℕ) (h : ns.length ≤ i) :
    getNode ns i = dummyNode := by
  unfold getNode
  simp [List.getD_eq_getElem?_getD, List.getElem?_eq_none (by simpa using h)]

theorem modifyNode_length (ns : List Node) (i : ℕ) (f : Node → Node) :
    (modifyNode ns i f).length = ns.length := by
  unfold modifyNode; simp

theorem getNode_modify_ne (ns : List Node) (i j : ℕ) (f : Node → Node) (h : j ≠ i) :
    getNode (modifyNode ns i f) j = getNode ns j := by
  unfold modifyNode getNode
  simp [List.getD_eq_getElem?_getD, List.getElem?_set_ne (Ne.symm h)]

theorem getNode_modify_same (ns : List Node) (i : ℕ) (f : Node → Node) (h : i < ns.length) :
    getNode (modifyNode ns i f) i = f (getNode ns i) := by
  unfold modifyNode getNode
  simp [List.getD_eq_getElem?_getD, List.getElem?_set_self (by simpa using h),
    List.getElem?_eq_getElem h]

/-- Generic preservation of a predicate along a left fold. -/
theorem foldl_preserve {α β : Type} (P : β → Prop) (f : β → α → β) :
    ∀ (l : List α) (b : β), P b → (∀ b a, P b → P (f b a)) → P (l.foldl f b)
  | [], b, hb, _ => hb
  | a :: l, b, hb, hf => foldl_preserve P f l (f b a) (hf b a hb) hf

-- C3.

/-- C3: `consume_battery` leaves base stations entirely unchanged; for a
smartphone the battery becomes `max (battery - cost) 0`, hence is never
negative, and (for an active smartphone) the active flag becomes `false`
exactly when the clamped battery is zero; a deactivated node is never
reactivated. -/
theorem C3_consume_battery_spec (n : Node) (cost : ℚ) :
    (n.node_type = NodeType.BaseStation → n.consume_battery cost = n) ∧
    (n.node_type = NodeType.Smartphone →
      (n.consume_battery cost).battery_level = max (n.battery_level - cost) 0 ∧
      0 ≤ (n.consume_battery cost).battery_level) ∧
    (n.node_type = NodeType.Smartphone → n.is_active = true →
      ((n.consume_battery cost).is_active = false ↔
        (n.consume_battery cost).battery_level = 0)) ∧
    (n.is_active = false → (n.consume_battery cost).is_active = false) := by
  by_cases hs : n.node_type = NodeType.Smartphone
  · have hb : (n.consume_battery cost).battery_level = max (n.battery_level - cost) 0 := by
      simp [Node.consume_battery, hs, ratMax_eq_max, qSub_eq]
    have hzero : (0:ℚ) ≤ (n.consume_battery cost).battery_level := by
      rw [hb]; exact le_max_right _ _
    refine ⟨fun h => absurd (hs ▸ h) (by simp), fun _ => ⟨hb, hzero⟩, fun _ ha => ?_, fun hi => ?_⟩
    · constructor
      · intro hfalse
        by_contra hne
        have : ¬ (ratMax (qSub n.battery_level cost) 0 ≤ 0) := by
          rw [ratMax_eq_max, qSub_eq]
          intro hle
          exact hne (le_antisymm (by rw [hb]; exact hle) hzero)
        simp [Node.consume_battery, hs, this, ha] at hfalse
      · intro hzero'
        have h0 : max (n.battery_level - cost) 0 = 0 := by rw [← hb]; exact hzero'
        have hle : ratMax (qSub n.battery_level cost) 0 ≤ 0 := by
          rw [ratMax_eq_max, qSub_eq]; exact le_of_eq h0
        simp [Node.consume_battery, hs, hle]
    · by_cases hle : ratMax (qSub n.battery_level cost) 0 ≤ 0 <;>
        simp [Node.consume_battery, hs, hle, hi]
  · have hB : n.consume_battery cost = n := by
      simp [Node.consume_battery, hs]
    exact ⟨fun _ => hB, fun h => absurd h hs, fun h => absurd h hs,
      fun hi => by rw [hB]; exact hi⟩

/-- Witness for C3 at a concrete smartphone and cost. -/
theorem C3_consume_battery_spec_witness :
    ((Node.new_smartphone 0 0 0).consume_battery 5).battery_level =
      max ((Node.new_smartphone 0 0 0).battery_level - 5) 0 ∧
    0 ≤ ((Node.new_smartphone 0 0 0).consume_battery 5).battery_level :=
  (C3_consume_battery_spec (Node.new_smartphone 0 0 0) 5).2.1 (by decide)

-- C4.

/-- C4: for any generated node set (ids equal to indices) and any
ordered pair of distinct in-range indices, the rebuilt
peer list of node `i` contains `j` iff the Euclidean distance from `i`
to `j` is at most `i`'s transmission range; and reachability is
asymmetric on a concrete two-node configuration with unequal ranges. -/
theorem C4_adjacency (ns : List Node) (i j : ℕ)
    (hi : i < ns.length) (hj : j < ns.length) (hij : i ≠ j)
    (hid : (getNode ns i).id = i) :
    (j ∈ (getNode (rebuildPeers ns) i).peers ↔
      Node.distance_to (getNode ns i) (getNode ns j) ≤
        ((getNode ns i).transmission_range : ℝ)) ∧
    (1 ∈ (getNode (rebuildPeers pairC4) 0).peers ∧
      0 ∉ (getNode (rebuildPeers pairC4) 1).peers) := by
  constructor
  · have hmap : getNode (rebuildPeers ns) i =
        (fun n => if n.id < ns.length then { n with peers := buildAdjacency ns n.id } else n)
          (getNode ns i) := getNode_map_lt _ ns i hi
    rw [hmap]
    simp only [hid, hi, if_pos]
    unfold buildAdjacency
    rw [List.mem_filter, List.mem_range]
    rw [Bool.and_eq_true, decide_eq_true_iff]
    rw [reachesB_iff_distance]
    constructor
    · rintro ⟨_, _, h⟩; exact h
    · intro h; exact ⟨hj, Ne.symm hij, h⟩
  · exact ⟨by decide, by decide⟩

/-- Witness for C4: in the two-node configuration, the iff lets the
adjacency list certify the distance bound. -/
theorem C4_adjacency_witness :
    Node.distance_to (getNode pairC4 0) (getNode pairC4 1) ≤
      ((getNode pairC4 0).transmission_range : ℝ) :=
  ((C4_adjacency pairC4 0 1 (by decide) (by decide) (by decide) (by decide)).1).mp
    (by decide)

-- C2.

/-- C2 counterexample: on the fixed seven-node topology `c2nodes`, the
five-step Flooding run consumes strictly less total energy than the
Swarm run driven by the decision stream `c2decisions` — the claimed
inequality (Flooding ≥ Swarm for every topology, schedule, and decision
sequence) fails. -/
theorem C2_flooding_energy_not_dominant :
    (run_simulation SimMode.Flooding noDecisions c2nodes 5 false).total_energy <
      (run_simulation SimMode.Swarm c2decisions c2nodes 5 false).total_energy := by
  decide

/-- C2 amended: the true core of the claim is pointwise policy
dominance — on any single offer, whenever the Swarm policy forwards,
the Flooding policy (which accepts unconditionally) forwards as well.
The aggregate total-energy inequality does not follow and is refuted by
`C2_flooding_energy_not_dominant`. -/
theorem C2_policy_pointwise_dominance (decisions : ℕ → Bool) (pos : ℕ) (nb : Node)
    (h : (forwardDecision SimMode.Swarm decisions pos nb).1 = true) :
    (forwardDecision SimMode.Flooding decisions pos nb).1 = true := rfl

/-- Witness for the pointwise dominance at a concrete offer. -/
theorem C2_policy_pointwise_dominance_witness :
    (forwardDecision SimMode.Flooding c2decisions 0 (Node.new_base_station 0 0 0)).1 = true :=
  C2_policy_pointwise_dominance c2decisions 0 (Node.new_base_station 0 0 0) (by decide)

-- C10.

/-- C10: the delivered counter counts packet copies, not identities.
Universal part: every dequeued copy whose last path node equals the
destination bumps the counter by one, adds its own hop count, appends a
delivery record, and leaves the next-step queue untouched (so delivery
removes nothing that is in flight).  Concrete part: in the Flooding run
on `c10nodes`, the single injected id `1` is recorded as delivered both
at step 3 (path `0-1-5`, 2 hops) and at step 5 (path `0-2-3-4-5`,
4 hops), the second in-flight copy still sits in the queue right after
the first delivery, and the final counters count all four copies with
the sum of their individual hop counts. -/
theorem C10_delivery_counts_copies :
    (∀ (mode : SimMode) (decisions : ℕ → Bool) (target : ℕ) (acc : DrainAcc) (p : Packet),
      p.history.getLastD 0 = target →
      (processPacket mode decisions target acc p).success = acc.success + 1 ∧
      (processPacket mode decisions target acc p).hops = acc.hops + p.hops ∧
      (processPacket mode decisions target acc p).verified =
        acc.verified ++ [{ id := p.id, path := p.history }] ∧
      (processPacket mode decisions target acc p).next_queue = acc.next_queue) ∧
    ((run_simulation SimMode.Flooding noDecisions c10nodes 5 true).sim_logs.map
        (fun l => l.packets) =
      [[], [], [{ id := 1, path := [0, 1, 5] }], [{ id := 2, path := [0, 1, 5] }],
       [{ id := 1, path := [0, 2, 3, 4, 5] }, { id := 3, path := [0, 1, 5] }]]) ∧
    ({ id := 1, history := [0, 2, 3, 4], target_id := 5, hops := 3, ttl := 12 } : Packet) ∈
      (stepsFold SimMode.Flooding noDecisions true c10nodes 3).packet_queue ∧
    (run_simulation SimMode.Flooding noDecisions c10nodes 5 true).successful_packets = 4 ∧
    (run_simulation SimMode.Flooding noDecisions c10nodes 5 true).total_hops = 2 + 2 + 4 + 2 := by
  refine ⟨?_, by decide, by decide, by decide, by decide⟩
  intro mode decisions target acc p h
  rw [List.getLastD_eq_getLast?] at h
  refine ⟨?_, ?_, ?_, ?_⟩ <;> simp [processPacket, h]

/-- Witness for the universal part of C10 at a concrete delivery. -/
theorem C10_delivery_counts_copies_witness :
    (processPacket SimMode.Flooding noDecisions 5
      { nodes := c10nodes, next_queue := [], step_visited := [], energy := 0,
        success := 0, hops := 0, verified := [], pos := 0 }
      { id := 1, history := [0, 1, 5], target_id := 5, hops := 2, ttl := 13 }).success =
      0 + 1 :=
  (C10_delivery_counts_copies.1 SimMode.Flooding noDecisions 5
    { nodes := c10nodes, next_queue := [], step_visited := [], energy := 0,
      success := 0, hops := 0, verified := [], pos := 0 }
    { id := 1, history := [0, 1, 5], target_id := 5, hops := 2, ttl := 13 } (by decide)).1

-- C8.

/-- C8 counterexample: on `twoSouth` in Flooding mode, after step 20 the
current queue is empty, the origin is inactive (so no injection is
pending and no packet can progress), yet the run does not end there: all
40 steps execute, producing 40 per-step log entries instead of stopping
before the budget. -/
theorem C8_quiescent_run_still_runs_full_budget :
    (stepsFold SimMode.Flooding noDecisions true twoSouth 20).packet_queue = [] ∧
    (getNode (stepsFold SimMode.Flooding noDecisions true twoSouth 20).nodes 0).is_active
      = false ∧
    (run_simulation SimMode.Flooding noDecisions twoSouth 40 true).sim_logs.length = 40 ∧
    ¬ (run_simulation SimMode.Flooding noDecisions twoSouth 40 true).sim_logs.length < 40 := by
  refine ⟨by decide, by decide, by decide, by decide⟩

/-- C8 amended: every run terminates after exactly its fixed maximum
step count; there is no early exit — with log export on, one log entry
is emitted per step, so a `k`-step run always produces `k` entries. -/
theorem C8_run_executes_all_steps (mode : SimMode) (decisions : ℕ → Bool)
    (ns : List Node) (k : ℕ) :
    (stepsFold mode decisions true ns k).sim_logs.length = k := by
  induction k with
  | zero => rfl
  | succ n ih =>
    show (simStep mode decisions true (stepsFold mode decisions true ns n) (n + 1)).sim_logs.length
      = n + 1
    simp [simStep, ih]

-- C1 counterexample.

/-- C1 counterexample: in a Flooding-mode run on `twoSouth`, the
disaster has fired and the disaster region contains two nodes and zero
active nodes (the trigger premise of the claim holds from step 20 on),
yet the compensation balance of region node 0 is still `0` at the end of
the 21-step run instead of `INSURANCE_PAYOUT`: the oracle is gated on
Swarm mode and never fires in Flooding mode. -/
theorem C1_flooding_oracle_never_fires :
    (stepsFold SimMode.Flooding noDecisions false twoSouth 20).disaster_triggered = true ∧
    0 < southTotal (stepsFold SimMode.Flooding noDecisions false twoSouth 20).nodes ∧
    southActive (stepsFold SimMode.Flooding noDecisions false twoSouth 20).nodes = 0 ∧
    (getNode (run_simulation SimMode.Flooding noDecisions twoSouth 21 false).nodes 0).wallet.balance_usdc = 0 ∧
    ¬ (getNode (run_simulation SimMode.Flooding noDecisions twoSouth 21 false).nodes 0).wallet.balance_usdc = INSURANCE_PAYOUT := by
  refine ⟨by decide, by decide, by decide, by decide, by decide⟩

/-- An offer either changes neither the next queue nor the suppression
map, or (on acceptance) appends exactly one packet — whose appended node
is not in the packet's path and was not yet targeted this step — and
records the target in the suppression map. -/
theorem offerPeer_cases (mode : SimMode) (decisions : ℕ → Bool) (p : Packet)
    (acc : DrainAcc) (nid : ℕ) :
    ((offerPeer mode decisions p acc nid).next_queue = acc.next_queue ∧
      (offerPeer mode decisions p acc nid).step_visited = acc.step_visited) ∨
    (nid ∉ p.history ∧ nid ∉ visitedGet acc.step_visited p.id ∧
      (offerPeer mode decisions p acc nid).next_queue =
        acc.next_queue ++ [enqPacket p nid] ∧
      (offerPeer mode decisions p acc nid).step_visited =
        visitedInsert acc.step_visited p.id nid) := by
  by_cases h1 : nid ∈ p.history
  · left; constructor <;> simp [offerPeer, h1]
  · by_cases h2 : nid ∈ visitedGet acc.step_visited p.id
    · left; constructor <;> simp [offerPeer, h1, h2]
    · by_cases h3 : (getNode acc.nodes nid).is_active = false
      · left; constructor <;> simp [offerPeer, h1, h2, h3]
      · by_cases h4 : (forwardDecision mode decisions acc.pos (getNode acc.nodes nid)).1 = true
        · right
          refine ⟨h1, h2, ?_, ?_⟩ <;> simp [offerPeer, enqPacket, h1, h2, h3, h4]
        · left
          constructor <;> simp [offerPeer, h1, h2, h3, h4]

/-- Pointwise projection invariance through `modifyNode`. -/
theorem getNode_modifyNode_proj {α : Type} (g : Node → α) (f : Node → Node)
    (hf : ∀ n, g (f n) = g n) (ns : List Node) (j i : ℕ) :
    g (getNode (modifyNode ns j f) i) = g (getNode ns i) := by
  by_cases hij : i = j
  · subst hij
    by_cases hi : i < ns.length
    · rw [getNode_modify_same ns i f hi, hf]
    · unfold modifyNode
      rw [List.set_eq_of_length_le (le_of_not_lt hi)]
  · rw [getNode_modify_ne ns j i f hij]

/-- The nodes list after an offer: unchanged, or (on acceptance at an
active neighbor) the receive charge plus, in Swarm mode, the token
reward, both applied at the accepting neighbor. -/
theorem offerPeer_nodes_cases (mode : SimMode) (decisions : ℕ → Bool) (p : Packet)
    (acc : DrainAcc) (nid : ℕ) :
    (offerPeer mode decisions p acc nid).nodes = acc.nodes ∨
    ((getNode acc.nodes nid).is_active = true ∧
      (offerPeer mode decisions p acc nid).nodes =
        (if mode = SimMode.Swarm then
          modifyNode (modifyNode acc.nodes nid (fun n => n.consume_battery COST_RX)) nid
            rewardNode
         else modifyNode acc.nodes nid (fun n => n.consume_battery COST_RX))) := by
  by_cases h1 : nid ∈ p.history
  · left; simp [offerPeer, h1]
  · by_cases h2 : nid ∈ visitedGet acc.step_visited p.id
    · left; simp [offerPeer, h1, h2]
    · by_cases h3 : (getNode acc.nodes nid).is_active = false
      · left; simp [offerPeer, h1, h2, h3]
      · by_cases h4 : (forwardDecision mode decisions acc.pos (getNode acc.nodes nid)).1 = true
        · right
          refine ⟨by simpa using h3, ?_⟩
          by_cases hm : mode = SimMode.Swarm
          · subst hm; simp [offerPeer, h1, h2, h3, h4]
          · simp [offerPeer, h1, h2, h3, h4, hm]
        · left; simp [offerPeer, h1, h2, h3, h4]

/-- C6 drain invariant: every packet in the next queue has a
duplicate-free path. -/
theorem drain_nodup (mode : SimMode) (decisions : ℕ → Bool) (target : ℕ) :
    ∀ (q : List Packet) (acc : DrainAcc),
      (∀ p ∈ q, p.history.Nodup) →
      (∀ p ∈ acc.next_queue, p.history.Nodup) →
      ∀ p ∈ (drainQueue mode decisions target q acc).next_queue, p.history.Nodup := by
  intro q
  induction q with
  | nil => intro acc _ hacc; exact hacc
  | cons p rest ih =>
    intro acc hq hacc
    have hp : p.history.Nodup := hq p (by simp)
    have hrest : ∀ p' ∈ rest, p'.history.Nodup := fun p' hp' => hq p' (by simp [hp'])
    refine ih (processPacket mode decisions target acc p) hrest ?_
    unfold processPacket
    by_cases hdel : p.history.getLast?.getD 0 = target
    · simpa [List.getLastD_eq_getLast?, hdel] using hacc
    · by_cases hdrop : p.ttl = 0 ∨
          (getNode acc.nodes (p.history.getLast?.getD 0)).is_active = false
      · simpa [List.getLastD_eq_getLast?, hdel, hdrop] using hacc
      · simp only [List.getLastD_eq_getLast?, hdel, hdrop, if_false]
        refine foldl_preserve (fun a => ∀ p' ∈ a.next_queue, p'.history.Nodup)
          (offerPeer mode decisions p) _ _ ?_ ?_
        · exact hacc
        intro a nid ha p' hp'
        rcases offerPeer_cases mode decisions p a nid with ⟨hnq, _⟩ | ⟨hnm, _, hnq, _⟩
        · exact ha p' (hnq ▸ hp')
        · rw [hnq] at hp'
          rcases List.mem_append.mp hp' with hmem | hmem
          · exact ha p' hmem
          · have hpe : p' = enqPacket p nid := by simpa using hmem
            subst hpe
            simpa [enqPacket, List.nodup_append, hnm] using hp

/-- The queue produced by one step is the drain's next queue. -/
theorem simStep_packet_queue (mode : SimMode) (decisions : ℕ → Bool) (export_logs : Bool)
    (s : RunState) (step : ℕ) :
    (simStep mode decisions export_logs s step).packet_queue =
      (stepDrain mode decisions s step).next_queue := rfl

/-- Every packet of the post-injection queue is carried over or fresh. -/
theorem injectQueue_mem (mode : SimMode) (s : RunState) (step : ℕ) (p : Packet)
    (hp : p ∈ injectQueue mode s step) :
    p ∈ s.packet_queue ∨ p = freshPacket s step := by
  unfold injectQueue at hp
  by_cases h : (getNode (preNodes mode s step) 0).is_active = true
  · rw [if_pos h] at hp
    rcases List.mem_append.mp hp with h' | h'
    · exact Or.inl h'
    · exact Or.inr (by simpa using h')
  · rw [if_neg h] at hp
    exact Or.inl hp

/-- C6: every packet ever held in the per-step queue of any run has a
path free of repeated node ids: a node already in a packet's path is
never appended again. -/
theorem C6_packet_history_nodup (mode : SimMode) (decisions : ℕ → Bool)
    (export_logs : Bool) (ns : List Node) (k : ℕ) :
    ∀ p ∈ (stepsFold mode decisions export_logs ns k).packet_queue, p.history.Nodup := by
  induction k with
  | zero => intro p hp; simp [stepsFold, initState] at hp
  | succ n ih =>
    intro p hp
    rw [show stepsFold mode decisions export_logs ns (n + 1) =
        simStep mode decisions export_logs (stepsFold mode decisions export_logs ns n) (n + 1)
      from rfl, simStep_packet_queue] at hp
    refine drain_nodup mode decisions _ _ _ ?_ (by simp) p hp
    intro p' hp'
    rcases injectQueue_mem _ _ _ _ hp' with h | h
    · exact ih p' h
    · subst h; simp [freshPacket]

/-- Witness for C6: the packet forwarded to the destination in the first
step of the `pairC6` run has the duplicate-free path `[0, 1]`. -/
theorem C6_packet_history_nodup_witness :
    ({ id := 1, history := [0, 1], target_id := 1, hops := 1, ttl := 14 } : Packet).history.Nodup :=
  C6_packet_history_nodup SimMode.Flooding noDecisions false pairC6 1
    { id := 1, history := [0, 1], target_id := 1, hops := 1, ttl := 14 } (by decide)

/-- Reading the suppression map after an insertion. -/
theorem visitedGet_insert (m : List (ℕ × List ℕ)) (pid nid : ℕ) :
    ∀ q, visitedGet (visitedInsert m pid nid) q =
      if q = pid then nid :: visitedGet m pid else visitedGet m q := by
  induction m with
  | nil =>
    intro q
    by_cases h : q = pid <;> simp [visitedInsert, visitedGet, h, Ne.symm]
  | cons e rest ih =>
    intro q
    by_cases he : e.1 = pid
    · by_cases hq : q = pid
      · subst hq
        simp [visitedInsert, he, visitedGet]
      · have h1 : ¬ e.1 = q := fun h => hq (by rw [← h, he])
        simp [visitedInsert, he, visitedGet, hq, h1, Ne.symm hq]
    · by_cases heq : e.1 = q
      · have hq : ¬ q = pid := fun h => he (by rw [heq, h])
        simp [visitedInsert, he, visitedGet, heq, hq]
      · by_cases hq : q = pid <;>
          simp [visitedInsert, visitedGet, he, heq, hq, ih]

theorem lastNode_enq (p : Packet) (nid : ℕ) : lastNode (enqPacket p nid) = nid := by
  simp [lastNode, enqPacket]

/-- C5 drain invariant: no two packets of the next queue share a packet
identity and a forwarded-to node, and every queued forward is recorded
in the suppression map. -/
theorem drain_no_dup_keys (mode : SimMode) (decisions : ℕ → Bool) (target : ℕ) :
    ∀ (q : List Packet) (acc : DrainAcc),
      ((acc.next_queue.map forwardKey).Nodup ∧
        (∀ p ∈ acc.next_queue, lastNode p ∈ visitedGet acc.step_visited p.id)) →
      (((drainQueue mode decisions target q acc).next_queue.map forwardKey).Nodup ∧
        (∀ p ∈ (drainQueue mode decisions target q acc).next_queue,
          lastNode p ∈ visitedGet (drainQueue mode decisions target q acc).step_visited p.id)) := by
  intro q
  induction q with
  | nil => intro acc h; exact h
  | cons p rest ih =>
    intro acc h
    refine ih (processPacket mode decisions target acc p) ?_
    unfold processPacket
    by_cases hdel : p.history.getLast?.getD 0 = target
    · simpa [List.getLastD_eq_getLast?, hdel] using h
    · by_cases hdrop : p.ttl = 0 ∨
          (getNode acc.nodes (p.history.getLast?.getD 0)).is_active = false
      · simpa [List.getLastD_eq_getLast?, hdel, hdrop] using h
      · simp only [List.getLastD_eq_getLast?, hdel, hdrop, if_false]
        refine foldl_preserve (fun a =>
            ((a.next_queue.map forwardKey).Nodup ∧
              (∀ p' ∈ a.next_queue, lastNode p' ∈ visitedGet a.step_visited p'.id)))
          (offerPeer mode decisions p) _ _ ?_ ?_
        · exact h
        intro a nid ha
        rcases offerPeer_cases mode decisions p a nid with ⟨hnq, hsv⟩ | ⟨_, hvs, hnq, hsv⟩
        · rw [hnq, hsv]; exact ha
        · constructor
          · rw [hnq, List.map_append]
            have hkey : ∀ x ∈ a.next_queue, ¬ forwardKey x = forwardKey (enqPacket p nid) := by
              intro p' hp' hpe
              unfold forwardKey at hpe
              rw [lastNode_enq] at hpe
              have hid : p'.id = (enqPacket p nid).id := congrArg Prod.fst hpe
              have hlast : lastNode p' = nid := congrArg Prod.snd hpe
              simp only [enqPacket] at hid
              exact hvs (hid ▸ hlast ▸ ha.2 p' hp')
            simpa [List.nodup_append] using ⟨ha.1, hkey⟩
          · intro p' hp'
            rw [hsv, visitedGet_insert]
            rw [hnq] at hp'
            rcases List.mem_append.mp hp' with hmem | hmem
            · have hold := ha.2 p' hmem
              by_cases hpid : p'.id = p.id
              · rw [if_pos hpid]
                exact List.mem_cons_of_mem _ (hpid ▸ hold)
              · rw [if_neg hpid]; exact hold
            · have hpe : p' = enqPacket p nid := by simpa using hmem
              subst hpe
              rw [if_pos (show (enqPacket p nid).id = p.id from rfl), lastNode_enq]
              exact List.mem_cons_self _ _

/-- C5: within any single step of any run, a packet identity is never
forwarded to the same neighbor twice (the produced queue has pairwise
distinct (id, forwarded-to) keys, the drain having started from an empty
suppression map); and the suppression is scoped to the single step — in
the `c10nodes` run, packet id 1 is forwarded to node 5 both during step
2 and again during step 4. -/
theorem C5_no_duplicate_forward_per_step :
    (∀ (mode : SimMode) (decisions : ℕ → Bool) (export_logs : Bool) (s : RunState) (step : ℕ),
      ((simStep mode decisions export_logs s step).packet_queue.map forwardKey).Nodup) ∧
    (∃ p1 ∈ (stepsFold SimMode.Flooding noDecisions true c10nodes 2).packet_queue,
      ∃ p2 ∈ (stepsFold SimMode.Flooding noDecisions true c10nodes 4).packet_queue,
        p1.id = p2.id ∧ lastNode p1 = 5 ∧ lastNode p2 = 5) := by
  constructor
  · intro mode decisions export_logs s step
    rw [simStep_packet_queue]
    exact (drain_no_dup_keys mode decisions _ _ _ ⟨by simp, by simp⟩).1
  · decide

/-!
Pointwise projection machinery: a projection of a node that is untouched
by battery charges (and, in Swarm mode, by the token reward) is
invariant across the whole queue drain, and similarly across the mapped
phases.
-/

theorem getNode_map_proj {α : Type} (g : Node → α) (f : Node → Node)
    (hf : ∀ n, g (f n) = g n) (ns : List Node) (i : ℕ) :
    g (getNode (ns.map f) i) = g (getNode ns i) := by
  rcases lt_or_ge i ns.length with h | h
  · rw [getNode_map_lt _ _ _ h, hf]
  · rw [getNode_map_ge _ _ _ h, getNode_ge _ _ h]

theorem drain_nodes_proj {α : Type} (g : Node → α)
    (hcons : ∀ n c, g (n.consume_battery c) = g n)
    (mode : SimMode) (decisions : ℕ → Bool) (target : ℕ)
    (hrew : mode = SimMode.Flooding ∨ ∀ n, g (rewardNode n) = g n) :
    ∀ (q : List Packet) (acc : DrainAcc) (i : ℕ),
      g (getNode (drainQueue mode decisions target q acc).nodes i) =
        g (getNode acc.nodes i) := by
  intro q
  induction q with
  | nil => intro acc i; rfl
  | cons p rest ih =>
    intro acc i
    rw [show drainQueue mode decisions target (p :: rest) acc =
        drainQueue mode decisions target rest (processPacket mode decisions target acc p)
      from rfl, ih]
    have hoffer : ∀ (a : DrainAcc) (nid : ℕ) (j : ℕ),
        g (getNode (offerPeer mode decisions p a nid).nodes j) = g (getNode a.nodes j) := by
      intro a nid j
      rcases offerPeer_nodes_cases mode decisions p a nid with hn | ⟨_, hn⟩
      · rw [hn]
      · rw [hn]
        by_cases hm : mode = SimMode.Swarm
        · rcases hrew with hF | hg
          · rw [hF] at hm; exact absurd hm (by simp)
          · rw [if_pos hm, getNode_modifyNode_proj g _ hg,
              getNode_modifyNode_proj g _ (fun n => hcons n COST_RX)]
        · rw [if_neg hm, getNode_modifyNode_proj g _ (fun n => hcons n COST_RX)]
    unfold processPacket
    by_cases hdel : p.history.getLast?.getD 0 = target
    · simp [List.getLastD_eq_getLast?, hdel]
    · by_cases hdrop : p.ttl = 0 ∨
          (getNode acc.nodes (p.history.getLast?.getD 0)).is_active = false
      · simp [List.getLastD_eq_getLast?, hdel, hdrop]
      · simp only [List.getLastD_eq_getLast?, hdel, hdrop, if_false]
        refine foldl_preserve (fun a => g (getNode a.nodes i) = g (getNode acc.nodes i))
          (offerPeer mode decisions p) _ _ ?_ ?_
        · exact getNode_modifyNode_proj g _ (fun n => hcons n COST_TX) acc.nodes _ i
        · intro a nid ha
          rw [hoffer a nid i]; exact ha

theorem drain_nodes_len (mode : SimMode) (decisions : ℕ → Bool) (target : ℕ) :
    ∀ (q : List Packet) (acc : DrainAcc),
      (drainQueue mode decisions target q acc).nodes.length = acc.nodes.length := by
  intro q
  induction q with
  | nil => intro acc; rfl
  | cons p rest ih =>
    intro acc
    rw [show drainQueue mode decisions target (p :: rest) acc =
        drainQueue mode decisions target rest (processPacket mode decisions target acc p)
      from rfl, ih]
    have hoffer : ∀ (a : DrainAcc) (nid : ℕ),
        (offerPeer mode decisions p a nid).nodes.length = a.nodes.length := by
      intro a nid
      rcases offerPeer_nodes_cases mode decisions p a nid with hn | ⟨_, hn⟩
      · rw [hn]
      · rw [hn]
        by_cases hm : mode = SimMode.Swarm
        · rw [if_pos hm, modifyNode_length, modifyNode_length]
        · rw [if_neg hm, modifyNode_length]
    unfold processPacket
    by_cases hdel : p.history.getLast?.getD 0 = target
    · simp [List.getLastD_eq_getLast?, hdel]
    · by_cases hdrop : p.ttl = 0 ∨
          (getNode acc.nodes (p.history.getLast?.getD 0)).is_active = false
      · simp [List.getLastD_eq_getLast?, hdel, hdrop]
      · simp only [List.getLastD_eq_getLast?, hdel, hdrop, if_false]
        refine foldl_preserve (fun a => a.nodes.length = acc.nodes.length)
          (offerPeer mode decisions p) _ _ ?_ ?_
        · show (modifyNode acc.nodes _ _).length = acc.nodes.length
          rw [modifyNode_length]
        · intro a nid ha; rw [hoffer a nid]; exact ha

theorem simStep_nodes (mode : SimMode) (decisions : ℕ → Bool) (export_logs : Bool)
    (s : RunState) (step : ℕ) :
    (simStep mode decisions export_logs s step).nodes =
      (stepDrain mode decisions s step).nodes := rfl

theorem simStep_sent (mode : SimMode) (decisions : ℕ → Bool) (export_logs : Bool)
    (s : RunState) (step : ℕ) :
    (simStep mode decisions export_logs s step).oracle_alert_sent =
      (if stepFires mode s step then true else s.oracle_alert_sent) := rfl

theorem payoutSouth_length (ns : List Node) : (payoutSouth ns).length = ns.length := by
  simp [payoutSouth]

theorem disasterPhase_length (step : ℕ) (ns : List Node) :
    (disasterPhase step ns).length = ns.length := by
  unfold disasterPhase; split <;> simp [applyDisaster]

theorem preNodes_length (mode : SimMode) (s : RunState) (step : ℕ) :
    (preNodes mode s step).length = s.nodes.length := by
  unfold preNodes; split <;> simp [payoutSouth_length, disasterPhase_length]

theorem idleNodes_length (mode : SimMode) (s : RunState) (step : ℕ) :
    (idleNodes mode s step).length = s.nodes.length := by
  unfold idleNodes; rw [List.length_map, preNodes_length]

theorem simStep_nodes_length (mode : SimMode) (decisions : ℕ → Bool) (export_logs : Bool)
    (s : RunState) (step : ℕ) :
    (simStep mode decisions export_logs s step).nodes.length = s.nodes.length := by
  rw [simStep_nodes]
  unfold stepDrain
  rw [drain_nodes_len]
  exact idleNodes_length mode s step

theorem rebuildPeers_length (ns : List Node) : (rebuildPeers ns).length = ns.length := by
  simp [rebuildPeers]

theorem stepsFold_nodes_length (mode : SimMode) (decisions : ℕ → Bool) (export_logs : Bool)
    (ns : List Node) (k : ℕ) :
    (stepsFold mode decisions export_logs ns k).nodes.length = ns.length := by
  induction k with
  | zero => exact rebuildPeers_length ns
  | succ n ih => rw [show stepsFold mode decisions export_logs ns (n + 1) =
      simStep mode decisions export_logs (stepsFold mode decisions export_logs ns n) (n + 1)
    from rfl, simStep_nodes_length]; exact ih

-- Per-phase projection lemmas.

theorem consume_battery_wallet (n : Node) (c : ℚ) :
    (n.consume_battery c).wallet = n.wallet := by
  unfold Node.consume_battery; split <;> rfl

theorem rewardNode_usdc (n : Node) : (rewardNode n).wallet.balance_usdc =
    n.wallet.balance_usdc := rfl

theorem applyDisaster_proj {α : Type} (g : Node → α)
    (hkill : ∀ n, g { n with is_active := false, battery_level := 0 } = g n)
    (ns : List Node) (i : ℕ) :
    g (getNode (applyDisaster ns) i) = g (getNode ns i) := by
  unfold applyDisaster
  refine getNode_map_proj g _ (fun n => ?_) ns i
  by_cases h : n.position.2 < 80 ∧ n.is_active = true
  · rw [if_pos h]; exact hkill n
  · rw [if_neg h]

theorem disasterPhase_proj {α : Type} (g : Node → α)
    (hkill : ∀ n, g { n with is_active := false, battery_level := 0 } = g n)
    (step : ℕ) (ns : List Node) (i : ℕ) :
    g (getNode (disasterPhase step ns) i) = g (getNode ns i) := by
  unfold disasterPhase
  split
  · exact applyDisaster_proj g hkill ns i
  · rfl

theorem payoutSouth_proj {α : Type} (g : Node → α)
    (hpay : ∀ n, g { n with wallet := { n.wallet with
      balance_usdc := qAdd n.wallet.balance_usdc INSURANCE_PAYOUT } } = g n)
    (ns : List Node) (i : ℕ) :
    g (getNode (payoutSouth ns) i) = g (getNode ns i) := by
  unfold payoutSouth
  refine getNode_map_proj g _ (fun n => ?_) ns i
  by_cases h : n.position.2 < 80
  · rw [if_pos h]; exact hpay n
  · rw [if_neg h]

theorem preNodes_proj {α : Type} (g : Node → α)
    (hkill : ∀ n, g { n with is_active := false, battery_level := 0 } = g n)
    (hpay : ∀ n, g { n with wallet := { n.wallet with
      balance_usdc := qAdd n.wallet.balance_usdc INSURANCE_PAYOUT } } = g n)
    (mode : SimMode) (s : RunState) (step : ℕ) (i : ℕ) :
    g (getNode (preNodes mode s step) i) = g (getNode s.nodes i) := by
  unfold preNodes
  split
  · rw [payoutSouth_proj g hpay, disasterPhase_proj g hkill]
  · rw [disasterPhase_proj g hkill]

theorem idleNodes_proj {α : Type} (g : Node → α)
    (hcons : ∀ n c, g (n.consume_battery c) = g n)
    (mode : SimMode) (s : RunState) (step : ℕ) (i : ℕ) :
    g (getNode (idleNodes mode s step) i) = g (getNode (preNodes mode s step) i) := by
  unfold idleNodes
  refine getNode_map_proj g _ (fun n => ?_) _ i
  by_cases h : n.is_active = true
  · rw [if_pos h]; exact hcons n COST_IDLE
  · rw [if_neg h]

theorem rebuildPeers_proj {α : Type} (g : Node → α)
    (hpeers : ∀ n l, g { n with peers := l } = g n) (ns : List Node) (i : ℕ) :
    g (getNode (rebuildPeers ns) i) = g (getNode ns i) := by
  unfold rebuildPeers
  refine getNode_map_proj g _ (fun n => ?_) ns i
  by_cases h : n.id < ns.length
  · rw [if_pos h]; exact hpeers n _
  · rw [if_neg h]

/-- A node projection untouched by charges, rewards, the disaster kill,
and the payout is constant across a whole step. -/
theorem simStep_nodes_proj {α : Type} (g : Node → α)
    (hcons : ∀ n c, g (n.consume_battery c) = g n)
    (hrew : ∀ n, g (rewardNode n) = g n)
    (hkill : ∀ n, g { n with is_active := false, battery_level := 0 } = g n)
    (hpay : ∀ n, g { n with wallet := { n.wallet with
      balance_usdc := qAdd n.wallet.balance_usdc INSURANCE_PAYOUT } } = g n)
    (mode : SimMode) (decisions : ℕ → Bool) (export_logs : Bool)
    (s : RunState) (step : ℕ) (i : ℕ) :
    g (getNode (simStep mode decisions export_logs s step).nodes i) =
      g (getNode s.nodes i) := by
  rw [simStep_nodes]
  unfold stepDrain
  rw [drain_nodes_proj g hcons mode decisions _ (Or.inr hrew),
    idleNodes_proj g hcons, preNodes_proj g hkill hpay]

/-- Positions (and with them region membership) never change during a
run. -/
theorem stepsFold_position (mode : SimMode) (decisions : ℕ → Bool) (export_logs : Bool)
    (ns : List Node) (k : ℕ) (i : ℕ) :
    (getNode (stepsFold mode decisions export_logs ns k).nodes i).position =
      (getNode ns i).position := by
  induction k with
  | zero => exact rebuildPeers_proj (fun n => n.position) (fun n l => rfl) ns i
  | succ n ih =>
    rw [show stepsFold mode decisions export_logs ns (n + 1) =
        simStep mode decisions export_logs (stepsFold mode decisions export_logs ns n) (n + 1)
      from rfl]
    rw [simStep_nodes_proj (fun n => n.position)
      (fun n c => by unfold Node.consume_battery; split <;> rfl)
      (fun n => rfl) (fun n => rfl) (fun n => rfl)]
    exact ih

-- C9.

theorem stepFires_flooding (s : RunState) (step : ℕ) :
    stepFires SimMode.Flooding s step = false := by
  simp [stepFires, oracleFires]

/-- C9: in a Flooding-mode run starting from zeroed wallets, no wallet
balance ever changes — the relay reward and the oracle payout are both
gated on Swarm mode. -/
theorem C9_flooding_wallets_zero (decisions : ℕ → Bool) (export_logs : Bool)
    (ns : List Node)
    (h0 : ∀ i, i < ns.length →
      (getNode ns i).wallet = { balance_token := 0, balance_usdc := 0 })
    (k i : ℕ) :
    (getNode (stepsFold SimMode.Flooding decisions export_logs ns k).nodes i).wallet =
      { balance_token := 0, balance_usdc := 0 } := by
  induction k with
  | zero =>
    have hw : (getNode (rebuildPeers ns) i).wallet = (getNode ns i).wallet :=
      rebuildPeers_proj (fun n => n.wallet) (fun n l => rfl) ns i
    show (getNode (rebuildPeers ns) i).wallet = _
    rw [hw]
    rcases lt_or_ge i ns.length with h | h
    · exact h0 i h
    · rw [getNode_ge ns i h]; rfl
  | succ n ih =>
    rw [show stepsFold SimMode.Flooding decisions export_logs ns (n + 1) =
        simStep SimMode.Flooding decisions export_logs
          (stepsFold SimMode.Flooding decisions export_logs ns n) (n + 1) from rfl]
    rw [simStep_nodes]
    unfold stepDrain
    rw [drain_nodes_proj (fun n => n.wallet) consume_battery_wallet
      SimMode.Flooding decisions _ (Or.inl rfl),
      idleNodes_proj (fun n => n.wallet) consume_battery_wallet]
    unfold preNodes
    rw [stepFires_flooding]
    simp only [Bool.false_eq_true, if_false]
    rw [disasterPhase_proj (fun n => n.wallet) (fun n => rfl)]
    exact ih

/-- Witness for C9 on a one-step run over `pairC6`. -/
theorem C9_flooding_wallets_zero_witness :
    (getNode (stepsFold SimMode.Flooding noDecisions false pairC6 1).nodes 0).wallet =
      { balance_token := 0, balance_usdc := 0 } :=
  C9_flooding_wallets_zero noDecisions false pairC6 (by decide) 1 0

-- C1 (amended): the oracle/payout trigger in Swarm mode.

theorem payoutSouth_usdc (ns : List Node) (i : ℕ) (hi : i < ns.length) :
    (getNode (payoutSouth ns) i).wallet.balance_usdc =
      (if (getNode ns i).position.2 < 80 then
        (getNode ns i).wallet.balance_usdc + INSURANCE_PAYOUT
       else (getNode ns i).wallet.balance_usdc) := by
  unfold payoutSouth
  rw [getNode_map_lt _ ns i hi]
  by_cases h : (getNode ns i).position.2 < 80
  · rw [if_pos h, if_pos h]
    simp [qAdd_eq]
  · rw [if_neg h, if_neg h]

/-- The compensation balance of node `i` across one step: the payout is
added exactly when the oracle fires and the node is in the region. -/
theorem simStep_usdc (mode : SimMode) (decisions : ℕ → Bool) (export_logs : Bool)
    (s : RunState) (step : ℕ) (i : ℕ) (hi : i < s.nodes.length) :
    (getNode (simStep mode decisions export_logs s step).nodes i).wallet.balance_usdc =
      (if stepFires mode s step = true ∧ (getNode s.nodes i).position.2 < 80 then
        (getNode s.nodes i).wallet.balance_usdc + INSURANCE_PAYOUT
       else (getNode s.nodes i).wallet.balance_usdc) := by
  rw [simStep_nodes]
  unfold stepDrain
  rw [drain_nodes_proj (fun n => n.wallet.balance_usdc)
      (fun n c => congrArg Wallet.balance_usdc (consume_battery_wallet n c)) mode decisions _
      (Or.inr (fun n => rfl)),
    idleNodes_proj (fun n => n.wallet.balance_usdc)
      (fun n c => congrArg Wallet.balance_usdc (consume_battery_wallet n c))]
  unfold preNodes
  have hpos : (getNode (disasterPhase step s.nodes) i).position =
      (getNode s.nodes i).position :=
    disasterPhase_proj (fun n => n.position) (fun n => rfl) step s.nodes i
  have husdc : (getNode (disasterPhase step s.nodes) i).wallet.balance_usdc =
      (getNode s.nodes i).wallet.balance_usdc :=
    disasterPhase_proj (fun n => n.wallet.balance_usdc) (fun n => rfl) step s.nodes i
  by_cases hf : stepFires mode s step = true
  · rw [if_pos hf]
    have hlen : i < (disasterPhase step s.nodes).length := by
      rw [disasterPhase_length]; exact hi
    rw [payoutSouth_usdc _ i hlen, hpos, husdc]
    simp only [hf, true_and]
  · rw [if_neg hf, husdc]
    have hno : ¬ (stepFires mode s step = true ∧ (getNode s.nodes i).position.2 < 80) :=
      fun hc => hf hc.1
    rw [if_neg hno]

/-- A firing oracle presupposes it has not fired before. -/
theorem stepFires_sent_false (mode : SimMode) (s : RunState) (step : ℕ)
    (h : stepFires mode s step = true) : s.oracle_alert_sent = false := by
  unfold stepFires oracleFires at h
  simp only [Bool.and_eq_true, Bool.not_eq_true'] at h
  exact h.1.1.1.2

/-- The fired flag is exactly "some step so far fired". -/
theorem stepsFold_sent_iff (mode : SimMode) (decisions : ℕ → Bool) (export_logs : Bool)
    (ns : List Node) (k : ℕ) :
    (stepsFold mode decisions export_logs ns k).oracle_alert_sent = true ↔
      ∃ t, 1 ≤ t ∧ t ≤ k ∧
        stepFires mode (stepsFold mode decisions export_logs ns (t - 1)) t = true := by
  induction k with
  | zero =>
    constructor
    · intro h; exact absurd h (by simp [stepsFold, initState])
    · rintro ⟨t, h1, h2, _⟩; omega
  | succ n ih =>
    rw [show stepsFold mode decisions export_logs ns (n + 1) =
        simStep mode decisions export_logs (stepsFold mode decisions export_logs ns n) (n + 1)
      from rfl, simStep_sent]
    by_cases hf : stepFires mode (stepsFold mode decisions export_logs ns n) (n + 1) = true
    · rw [if_pos hf]
      constructor
      · intro _
        exact ⟨n + 1, by omega, le_refl _, by simpa using hf⟩
      · intro _; rfl
    · rw [if_neg hf, ih]
      constructor
      · rintro ⟨t, h1, h2, hfire⟩
        exact ⟨t, h1, by omega, hfire⟩
      · rintro ⟨t, h1, h2, hfire⟩
        rcases Nat.lt_or_ge t (n + 1) with hlt | hge
        · exact ⟨t, h1, by omega, hfire⟩
        · have ht : t = n + 1 := by omega
          subst ht
          exact absurd (by simpa using hfire) hf

/-- The fired flag never resets. -/
theorem stepsFold_sent_mono (mode : SimMode) (decisions : ℕ → Bool) (export_logs : Bool)
    (ns : List Node) (k1 k2 : ℕ) (h : k1 ≤ k2)
    (hs : (stepsFold mode decisions export_logs ns k1).oracle_alert_sent = true) :
    (stepsFold mode decisions export_logs ns k2).oracle_alert_sent = true := by
  induction k2 with
  | zero =>
    have : k1 = 0 := by omega
    subst this; exact hs
  | succ n ih =>
    rcases Nat.lt_or_ge k1 (n + 1) with hlt | hge
    · rw [show stepsFold mode decisions export_logs ns (n + 1) =
          simStep mode decisions export_logs (stepsFold mode decisions export_logs ns n) (n + 1)
        from rfl, simStep_sent]
      have := ih (by omega)
      split
      · rfl
      · exact this
    · have : k1 = n + 1 := by omega
      subst this; exact hs

/-- C1 (amended to Swarm mode): starting from zeroed compensation
balances, at every point of a Swarm run each node's compensation balance
is `INSURANCE_PAYOUT` if the oracle has fired and the node lies in the
disaster region, and `0` otherwise — so the payout is credited to every
region node (active or not) when the oracle fires, exactly once, and no
step after the firing changes any compensation balance; the fired flag
holds exactly when some earlier step satisfied the firing condition
(post-disaster, region non-empty, zero region survivors, not yet fired),
and at most one step of a run can satisfy it. -/
theorem C1_oracle_payout_swarm (decisions : ℕ → Bool) (export_logs : Bool) (ns : List Node)
    (h0 : ∀ i, i < ns.length → (getNode ns i).wallet.balance_usdc = 0) :
    (∀ k i, i < ns.length →
      (getNode (stepsFold SimMode.Swarm decisions export_logs ns k).nodes i).wallet.balance_usdc =
        (if (stepsFold SimMode.Swarm decisions export_logs ns k).oracle_alert_sent = true ∧
            (getNode ns i).position.2 < 80
         then INSURANCE_PAYOUT else 0)) ∧
    (∀ k, (stepsFold SimMode.Swarm decisions export_logs ns k).oracle_alert_sent = true ↔
      ∃ t, 1 ≤ t ∧ t ≤ k ∧
        stepFires SimMode.Swarm (stepsFold SimMode.Swarm decisions export_logs ns (t - 1)) t
          = true) ∧
    (∀ t1 t2, 1 ≤ t1 → 1 ≤ t2 →
      stepFires SimMode.Swarm (stepsFold SimMode.Swarm decisions export_logs ns (t1 - 1)) t1
        = true →
      stepFires SimMode.Swarm (stepsFold SimMode.Swarm decisions export_logs ns (t2 - 1)) t2
        = true →
      t1 = t2) := by
  refine ⟨?_, fun k => stepsFold_sent_iff SimMode.Swarm decisions export_logs ns k, ?_⟩
  · intro k
    induction k with
    | zero =>
      intro i hi
      have hz : (getNode (rebuildPeers ns) i).wallet.balance_usdc =
          (getNode ns i).wallet.balance_usdc :=
        rebuildPeers_proj (fun n => n.wallet.balance_usdc) (fun n l => rfl) ns i
      have hsent : (stepsFold SimMode.Swarm decisions export_logs ns 0).oracle_alert_sent
          = false := rfl
      show (getNode (rebuildPeers ns) i).wallet.balance_usdc = _
      rw [hz, h0 i hi, hsent]
      simp
    | succ n ih =>
      intro i hi
      have hlen : i < (stepsFold SimMode.Swarm decisions export_logs ns n).nodes.length := by
        rw [stepsFold_nodes_length]; exact hi
      rw [show stepsFold SimMode.Swarm decisions export_logs ns (n + 1) =
          simStep SimMode.Swarm decisions export_logs
            (stepsFold SimMode.Swarm decisions export_logs ns n) (n + 1) from rfl]
      rw [simStep_usdc SimMode.Swarm decisions export_logs _ (n + 1) i hlen, simStep_sent]
      rw [stepsFold_position SimMode.Swarm decisions export_logs ns n i]
      by_cases hf : stepFires SimMode.Swarm (stepsFold SimMode.Swarm decisions export_logs ns n)
          (n + 1) = true
      · have hsent0 := stepFires_sent_false _ _ _ hf
        rw [if_pos hf]
        by_cases hr : (getNode ns i).position.2 < 80
        · rw [if_pos ⟨hf, hr⟩, ih i hi, hsent0]
          simp [hr]
        · rw [if_neg (fun hc => hr hc.2), ih i hi, hsent0]
          simp [hr]
      · rw [if_neg hf, if_neg (fun hc => hf hc.1), ih i hi]
  · intro t1 t2 h1 h2 hf1 hf2
    by_contra hne
    rcases Nat.lt_or_ge t1 t2 with hlt | hge
    · have hsent1 : (stepsFold SimMode.Swarm decisions export_logs ns t1).oracle_alert_sent
          = true := by
        rw [stepsFold_sent_iff]
        exact ⟨t1, h1, le_refl _, hf1⟩
      have hmono := stepsFold_sent_mono SimMode.Swarm decisions export_logs ns t1 (t2 - 1)
        (by omega) hsent1
      rw [stepFires_sent_false _ _ _ hf2] at hmono
      exact absurd hmono (by simp)
    · have hlt : t2 < t1 := by omega
      have hsent2 : (stepsFold SimMode.Swarm decisions export_logs ns t2).oracle_alert_sent
          = true := by
        rw [stepsFold_sent_iff]
        exact ⟨t2, h2, le_refl _, hf2⟩
      have hmono := stepsFold_sent_mono SimMode.Swarm decisions export_logs ns t2 (t1 - 1)
        (by omega) hsent2
      rw [stepFires_sent_false _ _ _ hf1] at hmono
      exact absurd hmono (by simp)

/-- Witness for C1: on the two-node south configuration, after the
disaster (steps ≥ 20) the Swarm run has paid the region node exactly
`INSURANCE_PAYOUT`. -/
theorem C1_oracle_payout_swarm_witness :
    (getNode (stepsFold SimMode.Swarm noDecisions false twoSouth 21).nodes 0).wallet.balance_usdc
      = INSURANCE_PAYOUT := by
  have h := (C1_oracle_payout_swarm noDecisions false twoSouth (by decide)).1 21 0 (by decide)
  rw [h, if_pos ⟨by decide, by decide⟩]

theorem ratMax_zero_nonneg (a : ℚ) : 0 ≤ ratMax a 0 := by
  rw [ratMax_eq_max]; exact le_max_right a 0

/-- Charging an active node keeps the invariant: deactivation happens
exactly at a zero clamped battery. -/
theorem consume_active_W (n : Node) (c : ℚ) (ha : n.is_active = true) :
    Wnode (n.consume_battery c) := by
  intro hoff
  by_cases hs : n.node_type = NodeType.Smartphone
  · by_cases hb : ratMax (qSub n.battery_level c) 0 ≤ 0
    · have hbat : (n.consume_battery c).battery_level = ratMax (qSub n.battery_level c) 0 := by
        simp [Node.consume_battery, hs]
      rw [hbat]
      exact le_antisymm hb (ratMax_zero_nonneg _)
    · have hact : (n.consume_battery c).is_active = true := by
        simp [Node.consume_battery, hs, hb, ha]
      rw [hact] at hoff
      exact absurd hoff (by simp)
  · have heq : n.consume_battery c = n := by simp [Node.consume_battery, hs]
    rw [heq, ha] at hoff
    exact absurd hoff (by simp)

theorem rewardNode_W (n : Node) (h : Wnode n) : Wnode (rewardNode n) := h

/-- Conditional predicate preservation through a mapped node list. -/
theorem getNode_map_pred (P : Node → Prop) (f : Node → Node)
    (hf : ∀ n, P n → P (f n)) (ns : List Node) (i : ℕ) (h : P (getNode ns i)) :
    P (getNode (ns.map f) i) := by
  rcases lt_or_ge i ns.length with hl | hl
  · rw [getNode_map_lt _ _ _ hl]; exact hf _ h
  · rw [getNode_map_ge _ _ _ hl]
    rw [getNode_ge ns i hl] at h
    exact h

theorem offerPeer_W (mode : SimMode) (decisions : ℕ → Bool) (p : Packet)
    (a : DrainAcc) (nid i : ℕ) (h : Wnode (getNode a.nodes i)) :
    Wnode (getNode (offerPeer mode decisions p a nid).nodes i) := by
  rcases offerPeer_nodes_cases mode decisions p a nid with hn | ⟨hact, hn⟩
  · rw [hn]; exact h
  · rw [hn]
    by_cases hi : i = nid
    · subst hi
      rcases lt_or_ge i a.nodes.length with hl | hl
      · by_cases hm : mode = SimMode.Swarm
        · rw [if_pos hm, getNode_modify_same _ _ _ (by rw [modifyNode_length]; exact hl),
            getNode_modify_same _ _ _ hl]
          exact rewardNode_W _ (consume_active_W _ _ hact)
        · rw [if_neg hm, getNode_modify_same _ _ _ hl]
          exact consume_active_W _ _ hact
      · have hset : ∀ f : Node → Node, modifyNode a.nodes i f = a.nodes := fun f =>
          List.set_eq_of_length_le (le_of_not_lt (not_lt.mpr hl))
        by_cases hm : mode = SimMode.Swarm
        · rw [if_pos hm, hset, hset]; exact h
        · rw [if_neg hm, hset]; exact h
    · by_cases hm : mode = SimMode.Swarm
      · rw [if_pos hm, getNode_modify_ne _ _ _ _ hi, getNode_modify_ne _ _ _ _ hi]
        exact h
      · rw [if_neg hm, getNode_modify_ne _ _ _ _ hi]
        exact h

theorem processPacket_W (mode : SimMode) (decisions : ℕ → Bool) (target : ℕ)
    (acc : DrainAcc) (p : Packet) (i : ℕ) (h : Wnode (getNode acc.nodes i)) :
    Wnode (getNode (processPacket mode decisions target acc p).nodes i) := by
  unfold processPacket
  by_cases hdel : p.history.getLast?.getD 0 = target
  · simpa [List.getLastD_eq_getLast?, hdel] using h
  · by_cases hdrop : p.ttl = 0 ∨
        (getNode acc.nodes (p.history.getLast?.getD 0)).is_active = false
    · simpa [List.getLastD_eq_getLast?, hdel, hdrop] using h
    · simp only [List.getLastD_eq_getLast?, hdel, hdrop, if_false]
      have hcur : (getNode acc.nodes (p.history.getLast?.getD 0)).is_active = true := by
        cases hcase : (getNode acc.nodes (p.history.getLast?.getD 0)).is_active
        · exact absurd (Or.inr hcase) hdrop
        · rfl
      refine foldl_preserve (fun a => Wnode (getNode a.nodes i))
        (offerPeer mode decisions p) _ _ ?_ ?_
      · show Wnode (getNode (modifyNode acc.nodes _ _) i)
        by_cases hi : i = p.history.getLast?.getD 0
        · rw [hi]
          rcases lt_or_ge (p.history.getLast?.getD 0) acc.nodes.length with hl | hl
          · rw [getNode_modify_same _ _ _ hl]
            exact consume_active_W _ _ hcur
          · unfold modifyNode
            rw [List.set_eq_of_length_le (le_of_not_lt (not_lt.mpr hl))]
            rw [← hi]
            exact h
        · rw [getNode_modify_ne _ _ _ _ hi]; exact h
      · intro a nid ha
        exact offerPeer_W mode decisions p a nid i ha

theorem drain_W (mode : SimMode) (decisions : ℕ → Bool) (target : ℕ) :
    ∀ (q : List Packet) (acc : DrainAcc) (i : ℕ), Wnode (getNode acc.nodes i) →
      Wnode (getNode (drainQueue mode decisions target q acc).nodes i) := by
  intro q
  induction q with
  | nil => intro acc i h; exact h
  | cons p rest ih =>
    intro acc i h
    exact ih (processPacket mode decisions target acc p) i
      (processPacket_W mode decisions target acc p i h)

/-- A full step preserves the invariant at every index. -/
theorem simStep_W (mode : SimMode) (decisions : ℕ → Bool) (export_logs : Bool)
    (s : RunState) (step : ℕ) (i : ℕ) (h : Wnode (getNode s.nodes i)) :
    Wnode (getNode (simStep mode decisions export_logs s step).nodes i) := by
  rw [simStep_nodes]
  unfold stepDrain
  refine drain_W mode decisions _ _ _ i ?_
  show Wnode (getNode (idleNodes mode s step) i)
  have hpre : Wnode (getNode (preNodes mode s step) i) := by
    unfold preNodes
    have hdis : Wnode (getNode (disasterPhase step s.nodes) i) := by
      unfold disasterPhase
      split
      · unfold applyDisaster
        refine getNode_map_pred Wnode _ (fun n hn => ?_) s.nodes i h
        by_cases hc : n.position.2 < 80 ∧ n.is_active = true
        · rw [if_pos hc]; intro _; rfl
        · rw [if_neg hc]; exact hn
      · exact h
    split
    · unfold payoutSouth
      refine getNode_map_pred Wnode _ (fun n hn => ?_) _ i hdis
      by_cases hc : n.position.2 < 80
      · rw [if_pos hc]; exact hn
      · rw [if_neg hc]; exact hn
    · exact hdis
  unfold idleNodes
  refine getNode_map_pred Wnode _ (fun n hn => ?_) _ i hpre
  by_cases hc : n.is_active = true
  · rw [if_pos hc]; exact consume_active_W _ _ hc
  · rw [if_neg hc]; exact hn

theorem stepsFold_W (mode : SimMode) (decisions : ℕ → Bool) (export_logs : Bool)
    (ns : List Node) (k : ℕ) (i : ℕ)
    (h : Wnode (getNode ns i)) :
    Wnode (getNode (stepsFold mode decisions export_logs ns k).nodes i) := by
  induction k with
  | zero =>
    show Wnode (getNode (rebuildPeers ns) i)
    unfold rebuildPeers
    refine getNode_map_pred Wnode _ (fun n hn => ?_) ns i h
    by_cases hc : n.id < ns.length
    · rw [if_pos hc]; exact hn
    · rw [if_neg hc]; exact hn
  | succ n ih => exact simStep_W mode decisions export_logs _ (n + 1) i ih

/-- Once a node is inactive with zero battery, a whole step leaves those
two fields untouched. -/
theorem simStep_keeps_dead (mode : SimMode) (decisions : ℕ → Bool) (export_logs : Bool)
    (s : RunState) (step : ℕ) (i : ℕ)
    (h : (getNode s.nodes i).is_active = false ∧ (getNode s.nodes i).battery_level = 0) :
    (getNode (simStep mode decisions export_logs s step).nodes i).is_active = false ∧
    (getNode (simStep mode decisions export_logs s step).nodes i).battery_level = 0 := by
  rw [simStep_nodes]
  unfold stepDrain
  have hpre : (getNode (preNodes mode s step) i).is_active = false ∧
      (getNode (preNodes mode s step) i).battery_level = 0 := by
    unfold preNodes
    have hdis : (getNode (disasterPhase step s.nodes) i).is_active = false ∧
        (getNode (disasterPhase step s.nodes) i).battery_level = 0 := by
      unfold disasterPhase
      split
      · unfold applyDisaster
        refine getNode_map_pred (fun n => n.is_active = false ∧ n.battery_level = 0) _
          (fun n hn => ?_) s.nodes i h
        rw [if_neg (fun hc => by rw [hn.1] at hc; exact absurd hc.2 (by simp))]
        exact hn
      · exact h
    split
    · unfold payoutSouth
      refine getNode_map_pred (fun n => n.is_active = false ∧ n.battery_level = 0) _
        (fun n hn => ?_) _ i hdis
      by_cases hc : n.position.2 < 80
      · rw [if_pos hc]; exact hn
      · rw [if_neg hc]; exact hn
    · exact hdis
  have hidle : (getNode (idleNodes mode s step) i).is_active = false ∧
      (getNode (idleNodes mode s step) i).battery_level = 0 := by
    unfold idleNodes
    refine getNode_map_pred (fun n => n.is_active = false ∧ n.battery_level = 0) _
      (fun n hn => ?_) _ i hpre
    rw [if_neg (by rw [hn.1]; simp)]
    exact hn
  -- the drain never touches an inactive node
  have hdrain : ∀ (q : List Packet) (acc : DrainAcc),
      (getNode acc.nodes i).is_active = false ∧ (getNode acc.nodes i).battery_level = 0 →
      (getNode (drainQueue mode decisions (s.nodes.length - 1) q acc).nodes i).is_active
          = false ∧
      (getNode (drainQueue mode decisions (s.nodes.length - 1) q acc).nodes i).battery_level
          = 0 := by
    intro q
    induction q with
    | nil => intro acc hacc; exact hacc
    | cons p rest ihq =>
      intro acc hacc
      refine ihq (processPacket mode decisions (s.nodes.length - 1) acc p) ?_
      unfold processPacket
      by_cases hdel : p.history.getLast?.getD 0 = s.nodes.length - 1
      · simpa [List.getLastD_eq_getLast?, hdel] using hacc
      · by_cases hdrop : p.ttl = 0 ∨
            (getNode acc.nodes (p.history.getLast?.getD 0)).is_active = false
        · simpa [List.getLastD_eq_getLast?, hdel, hdrop] using hacc
        · simp only [List.getLastD_eq_getLast?, hdel, hdrop, if_false]
          have hcuri : ¬ i = p.history.getLast?.getD 0 := by
            intro hi
            exact hdrop (Or.inr (by rw [← hi]; exact hacc.1))
          refine foldl_preserve (fun a =>
              (getNode a.nodes i).is_active = false ∧ (getNode a.nodes i).battery_level = 0)
            (offerPeer mode decisions p) _ _ ?_ ?_
          · show (getNode (modifyNode acc.nodes _ _) i).is_active = false ∧
              (getNode (modifyNode acc.nodes _ _) i).battery_level = 0
            rw [getNode_modify_ne _ _ _ _ hcuri]
            exact hacc
          · intro a nid ha
            rcases offerPeer_nodes_cases mode decisions p a nid with hn | ⟨hact, hn⟩
            · rw [hn]; exact ha
            · have hi : ¬ i = nid := by
                intro hieq2
                rw [← hieq2, ha.1] at hact
                exact absurd hact (by simp)
              rw [hn]
              by_cases hm : mode = SimMode.Swarm
              · rw [if_pos hm, getNode_modify_ne _ _ _ _ hi, getNode_modify_ne _ _ _ _ hi]
                exact ha
              · rw [if_neg hm, getNode_modify_ne _ _ _ _ hi]
                exact ha
  exact hdrain _ _ hidle

/-- At the disaster step, a region node (given the battery invariant)
comes out inactive with zero battery. -/
theorem simStep_kills_region (mode : SimMode) (decisions : ℕ → Bool) (export_logs : Bool)
    (s : RunState) (i : ℕ) (hi : i < s.nodes.length)
    (hW : Wnode (getNode s.nodes i)) (hr : (getNode s.nodes i).position.2 < 80) :
    (getNode (simStep mode decisions export_logs s DISASTER_STEP).nodes i).is_active = false ∧
    (getNode (simStep mode decisions export_logs s DISASTER_STEP).nodes i).battery_level
      = 0 := by
  have hdis : (getNode (disasterPhase DISASTER_STEP s.nodes) i).is_active = false ∧
      (getNode (disasterPhase DISASTER_STEP s.nodes) i).battery_level = 0 := by
    unfold disasterPhase
    rw [if_pos rfl]
    unfold applyDisaster
    rw [getNode_map_lt _ _ _ hi]
    by_cases ha : (getNode s.nodes i).is_active = true
    · rw [if_pos ⟨hr, ha⟩]
      exact ⟨rfl, rfl⟩
    · rw [if_neg (fun hc => ha hc.2)]
      have hoff : (getNode s.nodes i).is_active = false := by
        cases hcase : (getNode s.nodes i).is_active
        · rfl
        · exact absurd hcase ha
      exact ⟨hoff, hW hoff⟩
  -- repackage as a step starting from the post-disaster state: reuse the
  -- dead-node frame lemma on the remaining phases
  rw [simStep_nodes]
  unfold stepDrain
  have hpre : (getNode (preNodes mode s DISASTER_STEP) i).is_active = false ∧
      (getNode (preNodes mode s DISASTER_STEP) i).battery_level = 0 := by
    unfold preNodes
    split
    · unfold payoutSouth
      refine getNode_map_pred (fun n => n.is_active = false ∧ n.battery_level = 0) _
        (fun n hn => ?_) _ i hdis
      by_cases hc : n.position.2 < 80
      · rw [if_pos hc]; exact hn
      · rw [if_neg hc]; exact hn
    · exact hdis
  have hidle : (getNode (idleNodes mode s DISASTER_STEP) i).is_active = false ∧
      (getNode (idleNodes mode s DISASTER_STEP) i).battery_level = 0 := by
    unfold idleNodes
    refine getNode_map_pred (fun n => n.is_active = false ∧ n.battery_level = 0) _
      (fun n hn => ?_) _ i hpre
    rw [if_neg (by rw [hn.1]; simp)]
    exact hn
  have hdrain : ∀ (q : List Packet) (acc : DrainAcc),
      (getNode acc.nodes i).is_active = false ∧ (getNode acc.nodes i).battery_level = 0 →
      (getNode (drainQueue mode decisions (s.nodes.length - 1) q acc).nodes i).is_active
          = false ∧
      (getNode (drainQueue mode decisions (s.nodes.length - 1) q acc).nodes i).battery_level
          = 0 := by
    intro q
    induction q with
    | nil => intro acc hacc; exact hacc
    | cons p rest ihq =>
      intro acc hacc
      refine ihq (processPacket mode decisions (s.nodes.length - 1) acc p) ?_
      unfold processPacket
      by_cases hdel : p.history.getLast?.getD 0 = s.nodes.length - 1
      · simpa [List.getLastD_eq_getLast?, hdel] using hacc
      · by_cases hdrop : p.ttl = 0 ∨
            (getNode acc.nodes (p.history.getLast?.getD 0)).is_active = false
        · simpa [List.getLastD_eq_getLast?, hdel, hdrop] using hacc
        · simp only [List.getLastD_eq_getLast?, hdel, hdrop, if_false]
          have hcuri : ¬ i = p.history.getLast?.getD 0 := by
            intro hieq
            exact hdrop (Or.inr (by rw [← hieq]; exact hacc.1))
          refine foldl_preserve (fun a =>
              (getNode a.nodes i).is_active = false ∧ (getNode a.nodes i).battery_level = 0)
            (offerPeer mode decisions p) _ _ ?_ ?_
          · show (getNode (modifyNode acc.nodes _ _) i).is_active = false ∧
              (getNode (modifyNode acc.nodes _ _) i).battery_level = 0
            rw [getNode_modify_ne _ _ _ _ hcuri]
            exact hacc
          · intro a nid ha
            rcases offerPeer_nodes_cases mode decisions p a nid with hn | ⟨hact, hn⟩
            · rw [hn]; exact ha
            · have hieq : ¬ i = nid := by
                intro hieq2
                rw [← hieq2, ha.1] at hact
                exact absurd hact (by simp)
              rw [hn]
              by_cases hm : mode = SimMode.Swarm
              · rw [if_pos hm, getNode_modify_ne _ _ _ _ hieq, getNode_modify_ne _ _ _ _ hieq]
                exact ha
              · rw [if_neg hm, getNode_modify_ne _ _ _ _ hieq]
                exact ha
  exact hdrain _ _ hidle

/-- C7: the disaster trigger deactivates and zeroes every currently
active node of the region, regardless of type; it leaves every node
outside the region entirely unchanged; the phase acts only at the fixed
disaster step; and from the disaster step on, every region node of the
run is inactive with zero battery. -/
theorem C7_disaster_trigger (mode : SimMode) (decisions : ℕ → Bool) (export_logs : Bool)
    (ns : List Node) :
    (∀ (ms : List Node) (i : ℕ), i < ms.length →
      ((getNode ms i).position.2 < 80 ∧ (getNode ms i).is_active = true →
        getNode (applyDisaster ms) i =
          { getNode ms i with is_active := false, battery_level := 0 }) ∧
      (¬ (getNode ms i).position.2 < 80 → getNode (applyDisaster ms) i = getNode ms i)) ∧
    (∀ (step : ℕ) (ms : List Node), step ≠ DISASTER_STEP → disasterPhase step ms = ms) ∧
    (∀ k i, Wnode (getNode ns i) → DISASTER_STEP ≤ k → i < ns.length →
      (getNode ns i).position.2 < 80 →
      (getNode (stepsFold mode decisions export_logs ns k).nodes i).is_active = false ∧
      (getNode (stepsFold mode decisions export_logs ns k).nodes i).battery_level = 0) := by
  refine ⟨?_, ?_, ?_⟩
  · intro ms i hi
    constructor
    · intro hc
      unfold applyDisaster
      rw [getNode_map_lt _ _ _ hi, if_pos hc]
    · intro hc
      unfold applyDisaster
      rw [getNode_map_lt _ _ _ hi,
        if_neg (fun hc2 => hc hc2.1)]
  · intro step ms hstep
    unfold disasterPhase
    rw [if_neg hstep]
  · intro k
    induction k with
    | zero =>
      intro i _ hk _ _
      exact absurd hk (by simp [DISASTER_STEP])
    | succ n ih =>
      intro i hW hk hi hr
      rcases Nat.lt_or_ge n DISASTER_STEP with hlt | hge
      · have hn : n + 1 = DISASTER_STEP := by omega
        rw [show stepsFold mode decisions export_logs ns (n + 1) =
            simStep mode decisions export_logs (stepsFold mode decisions export_logs ns n)
              (n + 1) from rfl, hn]
        refine simStep_kills_region mode decisions export_logs _ i ?_ ?_ ?_
        · rw [stepsFold_nodes_length]; exact hi
        · exact stepsFold_W mode decisions export_logs ns n i hW
        · rw [stepsFold_position]; exact hr
      · have hdead := ih i hW hge hi hr
        rw [show stepsFold mode decisions export_logs ns (n + 1) =
            simStep mode decisions export_logs (stepsFold mode decisions export_logs ns n)
              (n + 1) from rfl]
        exact simStep_keeps_dead mode decisions export_logs _ (n + 1) i hdead

/-- Witness for C7's run-level clause on the two-node south
configuration at the disaster step itself. -/
theorem C7_disaster_trigger_witness :
    (getNode (stepsFold SimMode.Flooding noDecisions false twoSouth 20).nodes 0).is_active
        = false ∧
    (getNode (stepsFold SimMode.Flooding noDecisions false twoSouth 20).nodes 0).battery_level
        = 0 :=
  (C7_disaster_trigger SimMode.Flooding noDecisions false twoSouth).2.2 20 0
    (fun h => by exact absurd h (by decide)) (by decide) (by decide) (by decide)

end Mesh
